import Mathlib

/-!
Verification of the resilient batch-fetch and cache layer of
`src/core/typesense_client.py` (a read-through client for a hosted
multi-search API), as a shallow embedding in Lean 4.

Modelling conventions, used throughout:

* Python values that flow through the client (JSON bodies, documents,
  cache snapshots) are modelled by the inductive `PyVal`.  Python's
  `int`/`float` distinction never influences any control flow of this
  module, so numbers are collapsed into a single `num : Int`
  constructor (non-integral floats do not occur in any claim).
* Python dicts are modelled as ordered association lists
  `List (String × PyVal)` with Python's semantics: insertion order is
  kept, assigning to an existing key updates it in place
  (`dictInsert`).
* The remote endpoint (`requests.post` + retry wrapper) is modelled by
  oracles: for `multi_search_request` an oracle mapping the attempt
  index to that attempt's outcome, and for the callers an oracle
  mapping the request payload to the dict that `multi_search_request`
  returned for it.
* Wall-clock sleeping and logging are modelled as ghost output lists;
  `safe_log` progress messages (an opaque collaborator per the spec)
  are not tracked except where a claim mentions a specific log.
* Field accesses such as `x.get(k)` raise in Python when `x` is a
  truthy non-dict.  The embedding makes these total, returning the
  Python default.  On a response shape where the source would raise it
  has no output at all, so the theorems below, quantified over every
  remote behaviour, read as statements about every behaviour on which
  the source completes; the totalized value never makes a claim true
  that the source falsifies.
-/

/-! ## Definitions -/

/-- Model of the Python values handled by the client: JSON-decoded
bodies, documents, cache snapshots.  Numbers are collapsed to `Int`
(the module never branches on the int/float distinction). -/
inductive PyVal : Type where
  | pynone : PyVal
  | pybool (b : Bool) : PyVal
  | num (n : Int) : PyVal
  | str (s : String) : PyVal
  | list (xs : List PyVal) : PyVal
  | dict (xs : List (String × PyVal)) : PyVal

/-- Python truthiness (`bool(x)`) for the modelled values. -/
def PyVal.truthy : PyVal → Bool
  | .pynone => false
  | .pybool b => b
  | .num n => n != 0
  | .str s => s != ""
  | .list xs => !xs.isEmpty
  | .dict xs => !xs.isEmpty

/-- Python `isinstance(x, dict)`. -/
def PyVal.isDict : PyVal → Bool
  | .dict _ => true
  | _ => false

/-- Python `a or b` (the module only ever uses the result, so the
value-selecting semantics suffice). -/
def pyOr (a b : PyVal) : PyVal := if a.truthy then a else b

/-- Python structural equality `==` on modelled values, used by the
`x in someList` membership test.  Python compares dicts ignoring
insertion order; the module only ever applies `==` through a
list-membership test on cache elements, where the operands are scalars
in every reachable case, so the order-sensitive comparison below is
faithful on the reachable inputs. -/
def PyVal.beq : PyVal → PyVal → Bool
  | .pynone, .pynone => true
  | .pybool a, .pybool b => a == b
  | .num a, .num b => a == b
  | .str a, .str b => a == b
  | .list xs, .list ys => beqL xs ys
  | .dict xs, .dict ys => beqD xs ys
  | _, _ => false
where
  beqL : List PyVal → List PyVal → Bool
    | [], [] => true
    | a :: as, b :: bs => PyVal.beq a b && beqL as bs
    | _, _ => false
  beqD : List (String × PyVal) → List (String × PyVal) → Bool
    | [], [] => true
    | (k, v) :: as, (l, w) :: bs => k == l && PyVal.beq v w && beqD as bs
    | _, _ => false

/-- Python `repr(x)`.  `str(float)` rendering and escaping inside
reprs of nested strings are not exercised by any claim; string
elements are rendered with plain single quotes as CPython does in the
common case. -/
def pyRepr : PyVal → String
  | .pynone => "None"
  | .pybool b => if b then "True" else "False"
  | .num n => toString n
  | .str s => "\x27" ++ s ++ "\x27"
  | .list xs => "[" ++ ", ".intercalate (xs.attach.map (fun x => pyRepr x.1)) ++ "]"
  | .dict xs =>
      "\x7b" ++
        ", ".intercalate (xs.attach.map
          (fun p => "\x27" ++ p.1.1 ++ "\x27: " ++ pyRepr p.1.2)) ++
      "\x7d"
decreasing_by
  · have := List.sizeOf_lt_of_mem x.2
    simp only [PyVal.list.sizeOf_spec]
    omega
  · have h1 := List.sizeOf_lt_of_mem p.2
    have h2 : sizeOf p.1.2 < sizeOf p.1 := by
      obtain ⟨a, b⟩ := p.1
      simp only [Prod.mk.sizeOf_spec]
      omega
    simp only [PyVal.dict.sizeOf_spec]
    omega

/-- Python `str(x)`: identical to `repr` except on strings. -/
def pyStr : PyVal → String
  | .str s => s
  | v => pyRepr v

/-- Python `d.get(k)` on a dict (first binding wins, as dict keys are
unique whenever the dict was built by Python itself).  On the
non-dict values the source never reaches this operation without
raising; the total fallback returns Python's default `None`. -/
def dictGet (d : PyVal) (k : String) : PyVal :=
  match d with
  | .dict xs => ((xs.find? (fun p => p.1 == k)).map (fun p => p.2)).getD .pynone
  | _ => .pynone

/-- Python `d.get(k, dflt)` on an association list. -/
def lookupD (d : List (String × PyVal)) (k : String) (dflt : PyVal) : PyVal :=
  ((d.find? (fun p => p.1 == k)).map (fun p => p.2)).getD dflt

/-- Python `d[k] = v` on an insertion-ordered dict: update in place if
the key exists, else append. -/
def dictInsert (k : String) (v : PyVal) : List (String × PyVal) → List (String × PyVal)
  | [] => [(k, v)]
  | (l, w) :: rest => if l == k then (k, v) :: rest else (l, w) :: dictInsert k v rest

/-- Key membership in a modelled dict (`k in d`). -/
def hasKey (d : List (String × PyVal)) (k : String) : Bool :=
  d.any (fun p => p.1 == k)

/-- Python `d[k]` on a value, as used by the cache-snapshot dict
comprehension: `none` models a raised exception (`KeyError`, or a
`TypeError` from indexing a non-dict with a string). -/
def pyIndex (b : PyVal) (k : String) : Option PyVal :=
  match b with
  | .dict xs => (xs.find? (fun p => p.1 == k)).map (fun p => p.2)
  | _ => none

/-- Python `needle in b` for the cache validation: key membership on
dicts, element membership on lists, substring test on strings;
`none` models the `TypeError` raised on the other types. -/
def pyContains (needle : String) (b : PyVal) : Option Bool :=
  match b with
  | .dict xs => some (xs.any (fun p => p.1 == needle))
  | .list xs => some (xs.any (fun x => PyVal.beq x (.str needle)))
  | .str s => some (decide ((s.splitOn needle).length > 1))
  | _ => none

/-- Structural worker for `chunkList`: `fuel` bounds the number of
chunks still producible (any value at least the list length works; the
`n = 0` and exhausted-fuel arms are unreachable when the chunk size is
positive, as it is in the source, and only serve termination). -/
def chunkListGo (n : Nat) : Nat → List α → List (List α)
  | _, [] => []
  | 0, x :: xs => [x :: xs]
  | fuel + 1, x :: xs =>
    if n = 0 then [x :: xs]
    else (x :: xs).take n :: chunkListGo n fuel ((x :: xs).drop n)

/-- The slices `bot_ids[i:i+80]` taken by the chunking loops
`for i in range(0, len(ids), CHUNK)`, in order. -/
def chunkList (n : Nat) (xs : List α) : List (List α) := chunkListGo n xs.length xs

/-- JSON string escaping as done by `json.dumps` on the id strings
(quotes and backslashes; control characters do not occur in ids). -/
def jsonEscape (s : String) : String :=
  s.foldl (fun acc c =>
    if c == '\\' then acc ++ "\\\\"
    else if c == '"' then acc ++ "\\\""
    else acc.push c) ""

/-- Model of `json.dumps(chunk)` for a list of id strings. -/
def jsonDumps (xs : List String) : String :=
  "[" ++ ", ".intercalate (xs.map (fun s => "\"" ++ jsonEscape s ++ "\"")) ++ "]"

/-- The input sanitisation `[str(x) for x in bot_ids if x]` shared by
the batch-lookup entry points. -/
def sanitizeIds (xs : List PyVal) : List String :=
  (xs.filter PyVal.truthy).map pyStr

/-- Body of an HTTP-success response: either `response.json()` raises
(`unparseable`) or it yields a decoded value. -/
inductive Body : Type where
  | unparseable : Body
  | parsed (v : PyVal) : Body

/-- Outcome of one `requests.post` attempt, as observed by the
`try` block of `multi_search_request`:
`httpError status hasResponse` models `raise_for_status` raising an
`HTTPError` (so `400 ≤ status`), with `hasResponse` the
`getattr(e, "response", None) is not None` test; `netError` models any
other `requests.exceptions.RequestException`; `otherError` any other
exception; `success` a 2xx response with its body. -/
inductive AttemptOutcome : Type where
  | httpError (status : Nat) (hasResponse : Bool) : AttemptOutcome
  | netError : AttemptOutcome
  | otherError : AttemptOutcome
  | success (body : Body) : AttemptOutcome

/-- An attempt outcome that takes one of the three `except` arms (the
attempt neither returned a body nor ended the call). -/
def AttemptOutcome.isTransportFailure : AttemptOutcome → Bool
  | .success _ => false
  | _ => true

/-- An HTTP-success outcome whose body is unparseable or parses to a
non-mapping. -/
def AttemptOutcome.isBadBody : AttemptOutcome → Bool
  | .success .unparseable => true
  | .success (.parsed v) => !v.isDict
  | _ => false

/-- An `HTTPError` carrying a rate-limit response, the situation the
spec's exponential-backoff sentence is about. -/
def AttemptOutcome.is429 : AttemptOutcome → Bool
  | .httpError s hasResp => hasResp && s == 429
  | _ => false

/-- The log lines `multi_search_request` can emit through `logging.error`. -/
inductive LogMsg : Type where
  | invalidJson : LogMsg
  | allAttemptsFailed : LogMsg

/-- Result of one `multi_search_request` call: the returned value, the
number of `requests.post` attempts issued, the sleeps performed (in
seconds, chronological) and the `logging.error` lines. -/
structure MSResult where
  result : PyVal
  attempts : Nat
  sleeps : List Nat
  logs : List LogMsg

/-- Truthiness of a `requests.Response` object: `Response.__bool__`
returns `self.ok`, which is `status_code < 400`.  This is what the
source's `getattr(e, "response", None) and ...` guard evaluates. -/
def responseTruthy (status : Nat) : Bool := status < 400

/-- The `for attempt in range(3)` loop of `multi_search_request`,
with `fuel` the attempts left (`3 - attempt`). -/
def multiSearchLoop (oracle : Nat → AttemptOutcome) (attempt : Nat) : Nat → MSResult
  | 0 => { result := .dict [], attempts := 0, sleeps := [], logs := [.allAttemptsFailed] }
  | fuel + 1 =>
    match oracle attempt with
    | .success .unparseable =>
        { result := .dict [], attempts := 1, sleeps := [], logs := [.invalidJson] }
    | .success (.parsed v) =>
        { result := if v.isDict then v else .dict [], attempts := 1, sleeps := [], logs := [] }
    | .httpError status hasResp =>
        let slp := if hasResp && (responseTruthy status && status == 429)
                   then 2 ^ attempt else 2
        let r := multiSearchLoop oracle (attempt + 1) fuel
        { r with attempts := r.attempts + 1, sleeps := slp :: r.sleeps }
    | .netError =>
        let r := multiSearchLoop oracle (attempt + 1) fuel
        { r with attempts := r.attempts + 1, sleeps := 2 :: r.sleeps }
    | .otherError =>
        let r := multiSearchLoop oracle (attempt + 1) fuel
        { r with attempts := r.attempts + 1, sleeps := 2 :: r.sleeps }

/-- Model of `multi_search_request(payload)`.  The request payload
itself does not influence the wrapper's control flow; the oracle
already fixes the endpoint's behaviour on each attempt for the given
payload. -/
def multi_search_request (oracle : Nat → AttemptOutcome) : MSResult :=
  multiSearchLoop oracle 0 3

/-- Endpoint behaviour refuting C2: the first attempt is an HTTP
success with an unparseable body, and the second attempt would have
produced a valid mapping. -/
def exC2oracle : Nat → AttemptOutcome
  | 0 => .success .unparseable
  | _ => .success (.parsed (.dict [("a", .num 1)]))

/-- Endpoint behaviour for the C2 witness: one network failure, then an
unparseable body. -/
def exC2witOracle : Nat → AttemptOutcome
  | 0 => .netError
  | _ => .success .unparseable

/-- The dict that `multi_search_request` returned for a given payload:
the remote behaviour seen by the callers.  By C1 this is always a
dict, so the oracle produces the dict's bindings directly. -/
abbrev RemoteMap := PyVal → List (String × PyVal)

/-- The payload built per chunk by `fetch_typesense_tags_for_bot_ids`
(source lines 80–92), fields in source order. -/
def tagsPayload (chunk : List String) : PyVal :=
  .dict [("searches", .list [
    .dict [
      ("collection", .str "public_characters_alias"),
      ("q", .str "*"),
      ("query_by", .str "name,title,tags,character_id"),
      ("filter_by", .str ("character_id:=" ++ jsonDumps chunk)),
      ("include_fields", .str "character_id,tags"),
      ("per_page", .num (chunk.length : Int)),
      ("page", .num 1),
      ("highlight_fields", .str "none"),
      ("enable_highlight_v1", .pybool false)]])]

/-- The payload built per chunk by `fetch_typesense_ratings_for_bot_ids`
(source lines 124–135). -/
def ratingsPayload (chunk : List String) : PyVal :=
  .dict [("searches", .list [
    .dict [
      ("collection", .str "public_characters_alias"),
      ("q", .str "*"),
      ("query_by", .str "name,title,tags,character_id"),
      ("filter_by", .str ("character_id:=" ++ jsonDumps chunk)),
      ("include_fields", .str "character_id,rating_score"),
      ("per_page", .num (chunk.length : Int)),
      ("page", .num 1),
      ("highlight_fields", .str "none"),
      ("enable_highlight_v1", .pybool false)]])]

/-- The hit extraction shared by every caller of the transport:
`results = (result or {}).get("results", [])` followed by
`hits = results[0].get("hits", []) if results else []`.  On shapes
where the source raises (truthy non-list `results`, non-dict
`results[0]`, truthy non-list `hits`) the source completes on
nothing; the model returns `[]` there. -/
def hitsOf (result : List (String × PyVal)) : List PyVal :=
  match lookupD result "results" (.list []) with
  | .list (first :: _) =>
    (match first with
     | .dict d =>
       (match lookupD d "hits" (.list []) with
        | .list hs => hs
        | _ => [])
     | _ => [])
  | _ => []

/-- `doc = (h or {}).get("document") or {}` (batch-lookup loops). -/
def batchDoc (h : PyVal) : PyVal :=
  pyOr (dictGet (pyOr h (.dict [])) "document") (.dict [])

/-- `cid = str(doc.get("character_id") or "")` (batch-lookup loops;
no `.strip()` here, unlike the crawler). -/
def batchCid (h : PyVal) : String :=
  pyStr (pyOr (dictGet (batchDoc h) "character_id") (.str ""))

/-- The id under which a hit is recorded by the batch-lookup loops, if
any: hits whose id coerces to the empty string are skipped. -/
def batchHitCid (h : PyVal) : Option String :=
  if batchCid h = "" then none else some (batchCid h)

/-- The ids a hit list contributes, in order. -/
def hitCids (hits : List PyVal) : List String := hits.filterMap batchHitCid

/-- Generic per-hit loop body of the two batch-lookup functions: skip
the hit if its id is empty, else record `val h` under the id
(`tag_map[cid] = ...` / `rating_map[cid] = ...`). -/
def batchHitStep (val : PyVal → PyVal) (m : List (String × PyVal)) (h : PyVal) :
    List (String × PyVal) :=
  if batchCid h = "" then m else dictInsert (batchCid h) (val h) m

/-- `doc.get("tags") or []` (source line 102). -/
def tagValue (h : PyVal) : PyVal := pyOr (dictGet (batchDoc h) "tags") (.list [])

/-- `float(rs)` as applied to `rating_score`: numbers and booleans
coerce; on anything else Python raises, which the `except` arm maps to
`None` (numeric strings are not modelled — the field is a number or
null in the source's schema). -/
def pyFloat : PyVal → Option PyVal
  | .num n => some (.num n)
  | .pybool b => some (.num (if b then 1 else 0))
  | _ => none

/-- `float(rs) if rs is not None else None`, with the `except` arm
collapsing a failed coercion to `None` (source lines 145–150). -/
def ratingValue (h : PyVal) : PyVal :=
  match dictGet (batchDoc h) "rating_score" with
  | .pynone => .pynone
  | v => (pyFloat v).getD .pynone

/-- Model of `fetch_typesense_tags_for_bot_ids` (source lines 64–105):
sanitize, return `{}` on an empty list, else one transport call per
80-id chunk, recording `doc.get("tags") or []` under each non-empty
hit id. -/
def fetch_typesense_tags_for_bot_ids (remote : RemoteMap) (bot_ids : List PyVal) :
    List (String × PyVal) :=
  let ids := sanitizeIds bot_ids
  if ids.isEmpty then [] else
  (chunkList 80 ids).foldl
    (fun m chunk => (hitsOf (remote (tagsPayload chunk))).foldl (batchHitStep tagValue) m) []

/-- Model of `fetch_typesense_ratings_for_bot_ids` (source lines
108–153). -/
def fetch_typesense_ratings_for_bot_ids (remote : RemoteMap) (bot_ids : List PyVal) :
    List (String × PyVal) :=
  let ids := sanitizeIds bot_ids
  if ids.isEmpty then [] else
  (chunkList 80 ids).foldl
    (fun m chunk => (hitsOf (remote (ratingsPayload chunk))).foldl (batchHitStep ratingValue) m) []

/-- The keys of a modelled dict, in order. -/
def keysOf (m : List (String × PyVal)) : List String := m.map (fun p => p.1)

/-- 81 distinct raw ids, spanning two chunks once sanitized. -/
def exC3ids : List PyVal := (List.range 81).map (fun i => PyVal.str ("id" ++ toString i))

/-- 81 raw ids whose sanitized list has `"id0"` both in the first and
in the second chunk. -/
def exC3dup : List PyVal :=
  (List.range 80).map (fun i => PyVal.str ("id" ++ toString i)) ++ [PyVal.str "id0"]

/-- The `per_page` field of the single search of a payload — how the
counterexample endpoint distinguishes the 80-id chunk from the 1-id
chunk. -/
def perPageOf (p : PyVal) : PyVal :=
  match dictGet p "searches" with
  | .list (s :: _) => dictGet s "per_page"
  | _ => .pynone

/-- A response with a single hit resolving `cid` to the tag list
`[tag]`. -/
def exTagResp (cid tag : String) : List (String × PyVal) :=
  [("results", .list [.dict [("hits", .list [
    .dict [("document", .dict [("character_id", .str cid), ("tags", .list [.str tag])])]])]])]

/-- Endpoint for the C3 counterexample: answers the 1-id chunk with
tag `B` for `id0` and every other query with tag `A` for `id0`. -/
def exC3remote : RemoteMap := fun p =>
  match perPageOf p with
  | .num 1 => exTagResp "id0" "B"
  | _ => exTagResp "id0" "A"

/-- State of one on-disk cache file as seen by one call. -/
inductive CacheState : Type where
  | absent : CacheState
  | unreadable : CacheState
  | parsed (v : PyVal) : CacheState

/-- The validation `all("character_id" in b for b in cached)`:
short-circuits at the first failing element; `none` models a raised
`TypeError`. -/
def allContainKey (needle : String) : List PyVal → Option Bool
  | [] => some true
  | b :: bs =>
    match pyContains needle b with
    | none => none
    | some false => some false
    | some true => allContainKey needle bs

/-- The comprehension `{str(b["character_id"]): b for b in cached}`
(also the final one over `ALL_RESULTS`): built in list order, a later
duplicate id updates the entry in place; `none` models a raised
exception. -/
def snapshotMapGo (acc : List (String × PyVal)) : List PyVal → Option (List (String × PyVal))
  | [] => some acc
  | b :: bs =>
    match pyIndex b "character_id" with
    | none => none
    | some v => snapshotMapGo (dictInsert (pyStr v) b acc) bs

def snapshotMap (bs : List PyVal) : Option (List (String × PyVal)) := snapshotMapGo [] bs

/-- The CACHE READ block (lines 166–173): `some m` models the early
return with mapping `m`, `none` models falling through to the live
crawl (cache opted out, missing file, parse failure, failed
validation, or an exception inside the `try`). -/
def cacheRead (useCache : Bool) (cache : CacheState) : Option (List (String × PyVal)) :=
  if !useCache then none else
  match cache with
  | .absent => none
  | .unreadable => none
  | .parsed v =>
    match v with
    | .list bs =>
      (match allContainKey "character_id" bs with
       | some true => snapshotMap bs
       | _ => none)
    | _ => none

/-- The filtered-mode filter clause (lines 181–186). -/
def filterClauseFiltered : String :=
  "application_ids:spicychat && tags:![Step-Family] && " ++
  "creator_user_id:![\x27kp:018d4672679e4c0d920ad8349061270c\x27," ++
  "\x27kp:2f4c9fcbdb0641f3a4b960bfeaf1ea0b\x27] " ++
  "&& type:STANDARD && tags:[\"Female\"] && tags:[\"NSFW\"]"

/-- The unfiltered-mode filter clause (lines 188–193). -/
def filterClauseUnfiltered : String :=
  "application_ids:spicychat && tags:![Step-Family] && " ++
  "creator_user_id:![\x27kp:018d4672679e4c0d920ad8349061270c\x27," ++
  "\x27kp:2f4c9fcbdb0641f3a4b960bfeaf1ea0b\x27] " ++
  "&& type:STANDARD"

/-- The per-page crawl payload (lines 196–218), fields in source
order. -/
def crawlPayload (filterFemaleNsfw : Bool) (page : Nat) : PyVal :=
  .dict [("searches", .list [
    .dict [
      ("query_by", .str "name,title,tags,creator_username,character_id,type"),
      ("include_fields", .str ("name,title,tags,creator_username,character_id," ++
        "avatar_is_nsfw,avatar_url,visibility,definition_visible," ++
        "num_messages,token_count,rating_score,lora_status," ++
        "creator_user_id,is_nsfw,type,sub_characters_count," ++
        "group_size_category,num_messages_24h")),
      ("use_cache", .pybool true),
      ("highlight_fields", .str "none"),
      ("enable_highlight_v1", .pybool false),
      ("sort_by", .str "num_messages_24h:desc"),
      ("collection", .str "public_characters_alias"),
      ("q", .str "*"),
      ("facet_by", .str
        "definition_size_category,group_size_category,tags,translated_languages"),
      ("filter_by", .str
        (if filterFemaleNsfw then filterClauseFiltered else filterClauseUnfiltered)),
      ("max_facet_values", .num 100),
      ("page", .num (page : Int)),
      ("per_page", .num 48)]])]

/-- Python `d.get(k, dflt)` on a value. -/
def dictGetD (d : PyVal) (k : String) (dflt : PyVal) : PyVal :=
  match d with
  | .dict xs => ((xs.find? (fun p => p.1 == k)).map (fun p => p.2)).getD dflt
  | _ => dflt

/-- `doc = obj.get("document") or {}` (line 230; unlike the batch
loops there is no `(obj or {})` guard, so a falsy or non-dict hit
raises in the source, which then completes on nothing). -/
def crawlDoc (obj : PyVal) : PyVal := pyOr (dictGet obj "document") (.dict [])

/-- Python `str.strip()` with no argument, on the ASCII whitespace
the ids can carry (Python also strips some Unicode whitespace, which
does not occur here).  Implemented on the character list so that it
evaluates inside the kernel. -/
def pyStripStr (s : String) : String :=
  String.mk (((s.data.dropWhile Char.isWhitespace).reverse.dropWhile
    Char.isWhitespace).reverse)

/-- `cid = str(doc.get("character_id") or "").strip()` (line 231). -/
def crawlCid (obj : PyVal) : String :=
  pyStripStr (pyStr (pyOr (dictGet (crawlDoc obj) "character_id") (.str "")))

/-- Python `.strip()` of a value the source knows to be a string
(`doc.get("name") or ""`); a truthy non-string would raise there,
which no claim exercises — such a value is left unchanged. -/
def pyStrip : PyVal → PyVal
  | .str s => .str (pyStripStr s)
  | v => v

/-- The bot record built for an accepted hit (lines 237–253), entries
in source order; `pct` is the opaque collaborator `rating_to_pct`. -/
def botRecord (pct : PyVal → PyVal) (page rank : Nat) (obj : PyVal) : PyVal :=
  let doc := crawlDoc obj
  let cid := crawlCid obj
  .dict [
    ("character_id", .str cid),
    ("name", pyStrip (pyOr (dictGet doc "name") (.str ""))),
    ("title", pyOr (dictGet doc "title") (.str "")),
    ("num_messages", pyOr (dictGetD doc "num_messages" (.num 0)) (.num 0)),
    ("num_messages_24h", pyOr (dictGetD doc "num_messages_24h" (.num 0)) (.num 0)),
    ("avatar_url", pyOr (dictGet doc "avatar_url") (.str "")),
    ("creator_username", pyOr (dictGet doc "creator_username") (.str "")),
    ("creator_user_id", pyOr (dictGet doc "creator_user_id") (.str "")),
    ("tags", pyOr (dictGetD doc "tags" (.list [])) (.list [])),
    ("is_nsfw", .pybool (dictGetD doc "is_nsfw" (.pybool false)).truthy),
    ("link", .str ("https://spicychat.ai/chat/" ++ cid)),
    ("page", .num (page : Int)),
    ("rank", .num (rank : Int)),
    ("rating_score", dictGetD doc "rating_score" .pynone),
    ("rating_pct", pct (dictGetD doc "rating_score" .pynone))]

/-- The accepted-hit loop over one page's hits (lines 229–254): a hit
whose id is empty is skipped; an accepted hit gets
`rank = len(ALL_RESULTS) + 1` and is appended. -/
def crawlPageStep (pct : PyVal → PyVal) (page : Nat) (acc : List PyVal)
    (hits : List PyVal) : List PyVal :=
  hits.foldl (fun a obj =>
    if crawlCid obj = "" then a
    else a ++ [botRecord pct page (a.length + 1) obj]) acc

/-- Result of the crawl loop: the accumulated `ALL_RESULTS` and the
pages for which a transport call was issued, in order. -/
structure CrawlResult where
  allResults : List PyVal
  pages : List Nat

/-- The `while page <= max_pages` loop (lines 195–259).  `fuel` is the
number of iterations the page budget still allows
(`max_pages + 1 - page`, so `fuel = 0` exactly when
`page > max_pages`). -/
def crawlLoop (remote : RemoteMap) (pct : PyVal → PyVal) (flag : Bool) :
    Nat → Nat → List PyVal → CrawlResult
  | _, 0, acc => { allResults := acc, pages := [] }
  | page, fuel + 1, acc =>
    let hits := hitsOf (remote (crawlPayload flag page))
    if hits.isEmpty then { allResults := acc, pages := [page] }
    else
      let acc2 := crawlPageStep pct page acc hits
      if hits.length < 48 then { allResults := acc2, pages := [page] }
      else
        let r := crawlLoop remote pct flag (page + 1) fuel acc2
        { allResults := r.allResults, pages := page :: r.pages }

/-- Result of one `fetch_typesense_top_bots` call: the returned
mapping, the accumulated `ALL_RESULTS`, the pages fetched (one
transport call each; `[]` on a cache hit) and the snapshot written
back, if any. -/
structure FetchResult where
  result : List (String × PyVal)
  allResults : List PyVal
  pages : List Nat
  cacheWrite : Option (List PyVal)

/-- Number of `multi_search_request` invocations the call made. -/
def FetchResult.remoteCalls (r : FetchResult) : Nat := r.pages.length

/-- Model of `fetch_typesense_top_bots(max_pages, use_cache,
filter_female_nsfw)` (lines 156–270).  `cacheF`/`cacheU` are the two
mode-keyed cache files; the flag selects which one is read and
written.  The final comprehension cannot raise (every built record
carries `character_id`), so its exception arm is collapsed with
`getD []`. -/
def fetch_typesense_top_bots (remote : RemoteMap) (pct : PyVal → PyVal)
    (maxPages : Nat) (useCache : Bool) (filterFemaleNsfw : Bool)
    (cacheF cacheU : CacheState) : FetchResult :=
  match cacheRead useCache (if filterFemaleNsfw then cacheF else cacheU) with
  | some m => { result := m, allResults := [], pages := [], cacheWrite := none }
  | none =>
    let r := crawlLoop remote pct filterFemaleNsfw 1 maxPages []
    { result := (snapshotMap r.allResults).getD [],
      allResults := r.allResults,
      pages := r.pages,
      cacheWrite := if r.allResults.isEmpty then none else some r.allResults }

/-- A snapshot record in the claim's sense: a mapping carrying the
`character_id` key. -/
def isRecordWithCid (b : PyVal) : Bool :=
  b.isDict && (pyIndex b "character_id").isSome

/-- The string id a snapshot record is keyed under. -/
def recordCid (b : PyVal) : String := pyStr ((pyIndex b "character_id").getD .pynone)

/-- Two valid records with distinct ids. -/
def exC4bs : List PyVal :=
  [.dict [("character_id", .str "a"), ("tags", .list [.str "T"])],
   .dict [("character_id", .str "b")]]

/-- A snapshot whose two records share one `character_id`, refuting C4
as stated for arbitrary snapshot contents. -/
def exC4dup : List PyVal :=
  [.dict [("character_id", .str "a"), ("tags", .list [.str "T1"])],
   .dict [("character_id", .str "a"), ("tags", .list [.str "T2"])]]

/-- The id sequence the crawler accepts from a hit list, in response
order: hits with a missing or empty (after strip) id are skipped. -/
def crawlAccepted (hits : List PyVal) : List PyVal :=
  hits.filterMap (fun obj =>
    if crawlCid obj = "" then none else some (PyVal.str (crawlCid obj)))

/-- Hits delivered for the pages a crawl fetched, flattened in crawl
order. -/
def crawlFetchedHits (remote : RemoteMap) (flag : Bool) (pages : List Nat) : List PyVal :=
  (pages.map (fun p => hitsOf (remote (crawlPayload flag p)))).flatten

/-- Hit count of a page as delivered by the endpoint. -/
def hitCount (remote : RemoteMap) (flag : Bool) (p : Nat) : Nat :=
  (hitsOf (remote (crawlPayload flag p))).length

/-- A full hit whose document id is `"x"`. -/
def exCrawlHit : PyVal := .dict [("document", .dict [("character_id", .str "x")])]

/-- The `page` field of the single search of a crawl payload. -/
def pageOfPayload (p : PyVal) : Nat :=
  match dictGet p "searches" with
  | .list (s :: _) =>
    (match dictGet s "page" with
     | .num n => n.toNat
     | _ => 0)
  | _ => 0

/-- An endpoint serving a fixed hit count per page (0 beyond the
list). -/
def exPagedRemote (counts : List Nat) : RemoteMap := fun p =>
  [("results", .list [.dict [("hits",
    .list (List.replicate (counts.getD (pageOfPayload p - 1) 0) exCrawlHit))]])]

/-- The `rank` entry of a bot record, as an integer (−1 if absent). -/
def rankInt (b : PyVal) : Int :=
  match dictGet b "rank" with
  | .num n => n
  | _ => -1

/-- The `page` entry of a bot record, as an integer (−1 if absent). -/
def pageInt (b : PyVal) : Int :=
  match dictGet b "page" with
  | .num n => n
  | _ => -1

/-- The loop `for cid, bot in (ts_map or {}).items(): tags =
bot.get("tags") or []; if tags: tag_map[str(cid)] = tags` — `str` of a
dict key that is already a string is the identity. -/
def buildTagMap (ts : List (String × PyVal)) : List (String × PyVal) :=
  ts.foldl (fun m p =>
    if (pyOr (dictGet p.2 "tags") (.list [])).truthy
    then dictInsert p.1 (pyOr (dictGet p.2 "tags") (.list [])) m
    else m) []

/-- Result of one `get_typesense_tag_map` call: the tag map, the
number of `fetch_typesense_top_bots` invocations made, and the top-bot
mapping the tag map was derived from. -/
structure TagMapResult where
  tagMap : List (String × PyVal)
  fetchCalls : Nat
  tsUsed : List (String × PyVal)

/-- Model of `get_typesense_tag_map`: one cache-preferring unfiltered
fetch (`max_pages=10, use_cache=True, filter_female_nsfw=False`), then
exactly one live fetch if and only if the first returned an empty
mapping. -/
def get_typesense_tag_map (remote : RemoteMap) (pct : PyVal → PyVal)
    (cacheF cacheU : CacheState) : TagMapResult :=
  let r1 := fetch_typesense_top_bots remote pct 10 true false cacheF cacheU
  let ts := if r1.result.isEmpty
    then (fetch_typesense_top_bots remote pct 10 false false cacheF cacheU).result
    else r1.result
  { tagMap := buildTagMap ts,
    fetchCalls := if r1.result.isEmpty then 2 else 1,
    tsUsed := ts }

/-- The payload built per chunk and collection (lines 328–340). -/
def createdAtPayload (coll : String) (chunk : List String) : PyVal :=
  .dict [("searches", .list [
    .dict [
      ("collection", .str coll),
      ("q", .str "*"),
      ("query_by", .str "character_id"),
      ("filter_by", .str ("character_id:=" ++ jsonDumps chunk)),
      ("include_fields", .str "character_id,created_at"),
      ("per_page", .num (chunk.length : Int)),
      ("page", .num 1),
      ("highlight_fields", .str "none"),
      ("enable_highlight_v1", .pybool false)]])]

/-- `cid = str(doc.get("character_id") or "").strip()` with the
`(h or {})` hit guard (lines 359–363). -/
def createdCid (h : PyVal) : String := pyStripStr (batchCid h)

/-- The per-hit loop body (lines 359–367): skip an empty id, record a
truthy `created_at` under the id. -/
def createdHitStep (m : List (String × PyVal)) (h : PyVal) : List (String × PyVal) :=
  if createdCid h = "" then m
  else
    if (dictGet (batchDoc h) "created_at").truthy
    then dictInsert (createdCid h) (dictGet (batchDoc h) "created_at") m
    else m

/-- One collection pass (lines 324–367): chunk the remaining ids into
windows of 80, one transport call per window, folding the hits into
`out`. -/
def createdCollFold (remote : RemoteMap) (coll : String) (remaining : List String)
    (out : List (String × PyVal)) : List (String × PyVal) :=
  (chunkList 80 remaining).foldl
    (fun m chunk => (hitsOf (remote (createdAtPayload coll chunk))).foldl createdHitStep m) out

/-- Ghost trace entry for one collection the loop processed: the
collection's name, the accumulated output when it started, and the
remaining ids it queried. -/
structure CollStep where
  coll : String
  outBefore : List (String × PyVal)
  remaining : List String

/-- The `for coll in collections` loop (lines 314–372):
`remaining = [bid for bid in bot_ids if bid not in out]`, break when
empty, else process the collection.  Also returns the ghost trace. -/
def createdLoop (remote : RemoteMap) (bot_ids : List String) :
    List String → List (String × PyVal) → List (String × PyVal) × List CollStep
  | [], out => (out, [])
  | coll :: colls, out =>
    let remaining := bot_ids.filter (fun bid => !(hasKey out bid))
    if remaining.isEmpty then (out, [])
    else
      let out2 := createdCollFold remote coll remaining out
      let rest := createdLoop remote bot_ids colls out2
      (rest.1, { coll := coll, outBefore := out, remaining := remaining } :: rest.2)

/-- Model of `fetch_typesense_created_at_for_bot_ids(bot_ids,
collections)`; the source's default `collections` is
`("public_characters", "public_characters_alias")`. -/
def fetch_typesense_created_at_for_bot_ids (remote : RemoteMap) (bot_ids : List PyVal)
    (collections : List String) : List (String × PyVal) × List CollStep :=
  let ids := sanitizeIds bot_ids
  if ids.isEmpty then ([], [])
  else createdLoop remote ids collections []

/-- A chained trace: each step starts from the previous step's
accumulated output. -/
def stepsChained (remote : RemoteMap) : List (String × PyVal) → List CollStep → Prop
  | _, [] => True
  | out, st :: rest =>
    st.outBefore = out ∧
    stepsChained remote (createdCollFold remote st.coll st.remaining out) rest

/-! ## Theorems -/

theorem chunkListGo_congr (n : Nat) (hn : n ≠ 0) :
    ∀ (f₁ : Nat) (xs : List α) (f₂ : Nat), xs.length ≤ f₁ → xs.length ≤ f₂ →
      chunkListGo n f₁ xs = chunkListGo n f₂ xs := by
  intro f₁
  induction f₁ with
  | zero =>
    intro xs f₂ h₁ _
    rcases xs with _ | ⟨x, xs⟩
    · cases f₂ <;> rfl
    · simp at h₁
  | succ g ih =>
    intro xs f₂ h₁ h₂
    rcases xs with _ | ⟨x, xs⟩
    · cases f₂ <;> rfl
    · rcases f₂ with _ | g₂
      · simp at h₂
      · simp only [chunkListGo, if_neg hn]
        congr 1
        exact ih _ _ (by simp [List.length_drop, List.length_cons] at h₁ ⊢; omega)
          (by simp [List.length_drop, List.length_cons] at h₂ ⊢; omega)

theorem chunkList_cons (n : Nat) (hn : n ≠ 0) (x : α) (xs : List α) :
    chunkList n (x :: xs) = (x :: xs).take n :: chunkList n ((x :: xs).drop n) := by
  show chunkListGo n (xs.length + 1) (x :: xs) = _
  rw [show chunkListGo n (xs.length + 1) (x :: xs)
      = (x :: xs).take n :: chunkListGo n xs.length ((x :: xs).drop n) by
    simp only [chunkListGo, if_neg hn]]
  congr 1
  exact chunkListGo_congr n hn _ _ _ (by simp; omega) (le_refl _)

theorem multiSearchLoop_isDict (oracle : Nat → AttemptOutcome) :
    ∀ fuel attempt, ((multiSearchLoop oracle attempt fuel).result).isDict = true := by
  intro fuel
  induction fuel with
  | zero => intro attempt; rfl
  | succ n ih =>
    intro attempt
    simp only [multiSearchLoop]
    cases oracle attempt with
    | success body =>
      cases body with
      | unparseable => rfl
      | parsed v =>
        simp only
        split
        · assumption
        · rfl
    | httpError s hr => exact ih (attempt + 1)
    | netError => exact ih (attempt + 1)
    | otherError => exact ih (attempt + 1)

theorem multiSearchLoop_allFail (oracle : Nat → AttemptOutcome) :
    ∀ fuel attempt,
      (∀ i, i < fuel → (oracle (attempt + i)).isTransportFailure = true) →
      (multiSearchLoop oracle attempt fuel).result = .dict [] ∧
      (multiSearchLoop oracle attempt fuel).attempts = fuel ∧
      (multiSearchLoop oracle attempt fuel).logs = [.allAttemptsFailed] := by
  intro fuel
  induction fuel with
  | zero => exact fun attempt _ => ⟨rfl, rfl, rfl⟩
  | succ n ih =>
    intro attempt h
    have h0 := h 0 (Nat.succ_pos n)
    simp only [Nat.add_zero] at h0
    have hrest := ih (attempt + 1) (fun i hi => by
      rw [show attempt + 1 + i = attempt + (i + 1) by omega]
      exact h (i + 1) (Nat.succ_lt_succ hi))
    cases ho : oracle attempt with
    | success body =>
      rw [ho] at h0
      simp [AttemptOutcome.isTransportFailure] at h0
    | httpError s hr =>
      simp only [multiSearchLoop, ho]
      exact ⟨hrest.1, by simp [hrest.2.1], hrest.2.2⟩
    | netError =>
      simp only [multiSearchLoop, ho]
      exact ⟨hrest.1, by simp [hrest.2.1], hrest.2.2⟩
    | otherError =>
      simp only [multiSearchLoop, ho]
      exact ⟨hrest.1, by simp [hrest.2.1], hrest.2.2⟩

/-- C1: for every behaviour of the remote endpoint the transport wrapper
returns a mapping; and when every one of the three attempts fails at the
transport level it makes exactly 3 attempts, logs the terminal failure
and returns the empty mapping. -/
theorem C1_transport_always_mapping (oracle : Nat → AttemptOutcome) :
    ((multi_search_request oracle).result).isDict = true ∧
    ((∀ i, i < 3 → (oracle i).isTransportFailure = true) →
      (multi_search_request oracle).result = .dict [] ∧
      (multi_search_request oracle).attempts = 3 ∧
      (multi_search_request oracle).logs = [.allAttemptsFailed]) := by
  refine ⟨multiSearchLoop_isDict oracle 3 0, fun h => ?_⟩
  exact multiSearchLoop_allFail oracle 3 0 (fun i hi => by simpa using h i hi)

/-- Witness for C1 at the concrete always-failing endpoint. -/
theorem C1_transport_always_mapping_witness :
    ((multi_search_request (fun _ => .netError)).result).isDict = true ∧
    ((multi_search_request (fun _ => .netError)).result = .dict [] ∧
     (multi_search_request (fun _ => .netError)).attempts = 3 ∧
     (multi_search_request (fun _ => .netError)).logs = [.allAttemptsFailed]) :=
  ⟨(C1_transport_always_mapping (fun _ => .netError)).1,
   (C1_transport_always_mapping (fun _ => .netError)).2 (fun _ _ => rfl)⟩

/-- C2 counterexample: with a valid mapping available on the second
attempt, the source still stops after one attempt and returns the empty
mapping — it does not retry on an unparseable body, contrary to the
claim. -/
theorem C2_counterexample :
    (multi_search_request exC2oracle).attempts = 1 ∧
    (multi_search_request exC2oracle).result = .dict [] ∧
    (multi_search_request exC2oracle).result ≠ .dict [("a", .num 1)] := by
  refine ⟨rfl, rfl, fun h => ?_⟩
  simp only [multi_search_request, multiSearchLoop, exC2oracle] at h
  exact absurd (PyVal.dict.inj h) (by simp)

theorem multiSearchLoop_badBody (oracle : Nat → AttemptOutcome) :
    ∀ fuel attempt i, i < fuel →
      (∀ j, j < i → (oracle (attempt + j)).isTransportFailure = true) →
      (oracle (attempt + i)).isBadBody = true →
      (multiSearchLoop oracle attempt fuel).result = .dict [] ∧
      (multiSearchLoop oracle attempt fuel).attempts = i + 1 := by
  intro fuel
  induction fuel with
  | zero => intro attempt i hi; omega
  | succ n ih =>
    intro attempt i hi hprev hbad
    cases i with
    | zero =>
      simp only [Nat.add_zero] at hbad
      cases ho : oracle attempt with
      | success body =>
        cases body with
        | unparseable => simp [multiSearchLoop, ho]
        | parsed v =>
          rw [ho] at hbad
          simp only [AttemptOutcome.isBadBody, Bool.not_eq_eq_eq_not, Bool.not_true] at hbad
          simp [multiSearchLoop, ho, hbad]
      | httpError s hr => rw [ho] at hbad; simp [AttemptOutcome.isBadBody] at hbad
      | netError => rw [ho] at hbad; simp [AttemptOutcome.isBadBody] at hbad
      | otherError => rw [ho] at hbad; simp [AttemptOutcome.isBadBody] at hbad
    | succ i =>
      have h0 := hprev 0 (Nat.succ_pos i)
      simp only [Nat.add_zero] at h0
      have hrest := ih (attempt + 1) i (by omega)
        (fun j hj => by
          rw [show attempt + 1 + j = attempt + (j + 1) by omega]
          exact hprev (j + 1) (Nat.succ_lt_succ hj))
        (by rw [show attempt + 1 + i = attempt + (i + 1) by omega]; exact hbad)
      cases ho : oracle attempt with
      | success body =>
        rw [ho] at h0
        simp [AttemptOutcome.isTransportFailure] at h0
      | httpError s hr =>
        simp only [multiSearchLoop, ho]
        exact ⟨hrest.1, by simp [hrest.2]⟩
      | netError =>
        simp only [multiSearchLoop, ho]
        exact ⟨hrest.1, by simp [hrest.2]⟩
      | otherError =>
        simp only [multiSearchLoop, ho]
        exact ⟨hrest.1, by simp [hrest.2]⟩

/-- C2 as amended: an HTTP-success attempt whose body is unparseable or
parses to a non-mapping makes `multi_search_request` return the empty
mapping immediately — the bad-body attempt is its last one and no
further attempt is made. -/
theorem C2_amended_bad_body_returns_immediately (oracle : Nat → AttemptOutcome) (i : Nat)
    (hi : i < 3) (hprev : ∀ j, j < i → (oracle j).isTransportFailure = true)
    (hbad : (oracle i).isBadBody = true) :
    (multi_search_request oracle).result = .dict [] ∧
    (multi_search_request oracle).attempts = i + 1 :=
  multiSearchLoop_badBody oracle 3 0 i hi
    (fun j hj => by simpa using hprev j hj) (by simpa using hbad)

/-- Witness for the amended C2 at a concrete endpoint behaviour. -/
theorem C2_amended_witness :
    (multi_search_request exC2witOracle).result = .dict [] ∧
    (multi_search_request exC2witOracle).attempts = 2 :=
  C2_amended_bad_body_returns_immediately exC2witOracle 1 (by omega)
    (fun j hj => by
      have hj0 : j = 0 := by omega
      subst hj0; rfl)
    rfl

theorem multiSearchLoop_429_sleeps (oracle : Nat → AttemptOutcome) :
    ∀ fuel attempt,
      (∀ i, i < fuel → (oracle (attempt + i)).is429 = true) →
      (multiSearchLoop oracle attempt fuel).sleeps = List.replicate fuel 2 := by
  intro fuel
  induction fuel with
  | zero => intro attempt _; rfl
  | succ n ih =>
    intro attempt h
    have h0 := h 0 (Nat.succ_pos n)
    simp only [Nat.add_zero] at h0
    have hrest := ih (attempt + 1) (fun i hi => by
      rw [show attempt + 1 + i = attempt + (i + 1) by omega]
      exact h (i + 1) (Nat.succ_lt_succ hi))
    cases ho : oracle attempt with
    | success body => rw [ho] at h0; simp [AttemptOutcome.is429] at h0
    | netError => rw [ho] at h0; simp [AttemptOutcome.is429] at h0
    | otherError => rw [ho] at h0; simp [AttemptOutcome.is429] at h0
    | httpError s hr =>
      rw [ho] at h0
      simp only [AttemptOutcome.is429, Bool.and_eq_true, beq_iff_eq] at h0
      obtain ⟨hhr, hs⟩ := h0
      subst hhr hs
      have hstep : (multiSearchLoop oracle attempt (n + 1)).sleeps
          = 2 :: (multiSearchLoop oracle (attempt + 1) n).sleeps := by
        simp [multiSearchLoop, ho, responseTruthy]
      rw [hstep, hrest, List.replicate_succ]

/-- C7 evaluated against the code: on an endpoint that rate-limits all
three attempts (HTTPError whose `response` has `status_code == 429`),
the wrapper sleeps a constant 2 seconds before each retry, never the
exponential 1s/2s/4s: the guard `getattr(e, "response", None) and ...`
evaluates the truthiness of the error `Response`, which is `ok`, i.e.
`status_code < 400` — always false here — so the `2**attempt` branch
is unreachable. -/
theorem C7_rate_limit_sleep_constant (oracle : Nat → AttemptOutcome)
    (h : ∀ i, i < 3 → (oracle i).is429 = true) :
    (multi_search_request oracle).sleeps = [2, 2, 2] := by
  have := multiSearchLoop_429_sleeps oracle 3 0 (fun i hi => by simpa using h i hi)
  simpa using this

/-- Witness for C7 at the concrete always-429 endpoint. -/
theorem C7_rate_limit_sleep_constant_witness :
    (multi_search_request (fun _ => .httpError 429 true)).sleeps = [2, 2, 2] :=
  C7_rate_limit_sleep_constant (fun _ => .httpError 429 true) (fun _ _ => rfl)

theorem chunkList_flatten (n : Nat) (xs : List α) : (chunkList n xs).flatten = xs := by
  rcases xs with _ | ⟨x, xs⟩
  · rfl
  · by_cases hn : n = 0
    · subst hn; simp [chunkList, chunkListGo]
    · rw [chunkList_cons n hn, List.flatten_cons,
        chunkList_flatten n ((x :: xs).drop n), List.take_append_drop]
termination_by xs.length
decreasing_by simp; omega

theorem chunkList_pairwiseDisjoint (n : Nat) (xs : List α) (h : xs.Nodup) :
    (chunkList n xs).Pairwise List.Disjoint := by
  have hj : ((chunkList n xs).flatten).Nodup := by rw [chunkList_flatten]; exact h
  exact (List.nodup_flatten.1 hj).2

theorem mem_keysOf_dictInsert {k c : String} {v : PyVal} {m : List (String × PyVal)} :
    k ∈ keysOf (dictInsert c v m) ↔ k = c ∨ k ∈ keysOf m := by
  induction m with
  | nil => simp [dictInsert, keysOf]
  | cons p rest ih =>
    obtain ⟨l, w⟩ := p
    simp only [dictInsert]
    split
    · next hl =>
      have hlc : l = c := by simpa using hl
      subst hlc
      simp only [keysOf, List.map_cons, List.mem_cons]
      tauto
    · next hl =>
      simp only [keysOf, List.map_cons, List.mem_cons] at ih ⊢
      tauto

theorem dictInsert_append_of_not_mem {c : String} (v : PyVal)
    {m₀ : List (String × PyVal)} (m₁ : List (String × PyVal)) (h : c ∉ keysOf m₀) :
    dictInsert c v (m₀ ++ m₁) = m₀ ++ dictInsert c v m₁ := by
  induction m₀ with
  | nil => rfl
  | cons p rest ih =>
    obtain ⟨l, w⟩ := p
    simp only [keysOf, List.map_cons, List.mem_cons, not_or] at h
    simp only [List.cons_append, dictInsert]
    split
    · next hl => exact absurd (by simpa using hl : l = c) (fun hh => h.1 hh.symm)
    · next hl =>
      show (l, w) :: dictInsert c v (rest ++ m₁) = (l, w) :: (rest ++ dictInsert c v m₁)
      rw [ih (by simpa [keysOf] using h.2)]

theorem hitCids_cons (h : PyVal) (hs : List PyVal) :
    hitCids (h :: hs) =
      (match batchHitCid h with
       | none => hitCids hs
       | some c => c :: hitCids hs) :=
  by unfold hitCids; rw [List.filterMap_cons]; cases batchHitCid h <;> rfl

theorem mem_hitCids_tail {c : String} (h : PyVal) {hs : List PyVal}
    (hc : c ∈ hitCids hs) : c ∈ hitCids (h :: hs) := by
  rw [hitCids_cons]
  cases batchHitCid h with
  | none => exact hc
  | some c0 => exact List.mem_cons_of_mem _ hc

theorem mem_hitCids_head {h : PyVal} {hs : List PyVal}
    (hne : ¬ batchCid h = "") : batchCid h ∈ hitCids (h :: hs) := by
  rw [hitCids_cons]
  simp only [batchHitCid, if_neg hne]
  exact List.mem_cons_self _ _

theorem mem_keysOf_batchFold (val : PyVal → PyVal) :
    ∀ (hits : List PyVal) (m : List (String × PyVal)) (k : String),
      k ∈ keysOf (hits.foldl (batchHitStep val) m) → k ∈ keysOf m ∨ k ∈ hitCids hits := by
  intro hits
  induction hits with
  | nil => exact fun m k h => Or.inl h
  | cons h hs ih =>
    intro m k hk
    simp only [List.foldl_cons] at hk
    rcases ih _ k hk with hm | hc
    · simp only [batchHitStep] at hm
      split at hm
      · exact Or.inl hm
      · next hne =>
        rcases mem_keysOf_dictInsert.1 hm with rfl | hm'
        · exact Or.inr (mem_hitCids_head hne)
        · exact Or.inl hm'
    · exact Or.inr (mem_hitCids_tail h hc)

theorem batchFold_append (val : PyVal → PyVal) :
    ∀ (hits : List PyVal) (m₀ m₁ : List (String × PyVal)),
      (∀ c ∈ hitCids hits, c ∉ keysOf m₀) →
      hits.foldl (batchHitStep val) (m₀ ++ m₁) =
        m₀ ++ hits.foldl (batchHitStep val) m₁ := by
  intro hits
  induction hits with
  | nil => exact fun m₀ m₁ _ => rfl
  | cons h hs ih =>
    intro m₀ m₁ hh
    simp only [List.foldl_cons]
    have hstep : batchHitStep val (m₀ ++ m₁) h = m₀ ++ batchHitStep val m₁ h := by
      simp only [batchHitStep]
      split
      · rfl
      · next hne => exact dictInsert_append_of_not_mem _ _ (hh _ (mem_hitCids_head hne))
    rw [hstep]
    exact ih m₀ _ (fun c hc => hh c (mem_hitCids_tail h hc))

theorem chunkFold_append (val : PyVal → PyVal) (H : List String → List PyVal) :
    ∀ (chunks : List (List String)) (m₀ m₁ : List (String × PyVal)),
      (∀ ch ∈ chunks, ∀ c ∈ hitCids (H ch), c ∉ keysOf m₀) →
      chunks.foldl (fun m ch => (H ch).foldl (batchHitStep val) m) (m₀ ++ m₁) =
        m₀ ++ chunks.foldl (fun m ch => (H ch).foldl (batchHitStep val) m) m₁ := by
  intro chunks
  induction chunks with
  | nil => exact fun m₀ m₁ _ => rfl
  | cons ch rest ih =>
    intro m₀ m₁ hh
    simp only [List.foldl_cons]
    rw [batchFold_append val _ m₀ m₁ (hh ch (List.mem_cons_self _ _))]
    exact ih m₀ _ (fun ch' hch' => hh ch' (List.mem_cons_of_mem _ hch'))

theorem chunkedFold_eq_join (val : PyVal → PyVal) (H : List String → List PyVal) :
    ∀ (chunks : List (List String)),
      (∀ ch ∈ chunks, ∀ c ∈ hitCids (H ch), c ∈ ch) →
      chunks.Pairwise List.Disjoint →
      chunks.foldl (fun m ch => (H ch).foldl (batchHitStep val) m) [] =
        (chunks.map (fun ch => (H ch).foldl (batchHitStep val) [])).flatten := by
  intro chunks
  induction chunks with
  | nil => exact fun _ _ => rfl
  | cons ch rest ih =>
    intro hsub hdisj
    simp only [List.foldl_cons, List.map_cons, List.flatten_cons]
    have hout : rest.foldl (fun m ch' => (H ch').foldl (batchHitStep val) m)
        ((H ch).foldl (batchHitStep val) []) =
        (H ch).foldl (batchHitStep val) [] ++
          rest.foldl (fun m ch' => (H ch').foldl (batchHitStep val) m) [] := by
      have := chunkFold_append val H rest ((H ch).foldl (batchHitStep val) []) []
        (fun ch' hch' c hc hmem => by
          rcases mem_keysOf_batchFold val (H ch) [] c hmem with h0 | h0
          · simp [keysOf] at h0
          · exact (List.pairwise_cons.1 hdisj).1 ch' hch'
              (hsub ch (List.mem_cons_self _ _) c h0) (hsub ch' (List.mem_cons_of_mem _ hch') c hc))
      simpa using this
    rw [hout, ih (fun ch' hch' => hsub ch' (List.mem_cons_of_mem _ hch'))
      (List.pairwise_cons.1 hdisj).2]

/-- C3 as amended: for every input whose sanitized id list is longer
than one chunk and duplicate-free, both batch-lookup functions
partition the sanitized ids into pairwise-disjoint windows of 80 (no
id appears in two chunks); and — whenever the remote resolves only ids
of the queried chunk, as the `character_id:=[...]` filter guarantees —
the merged output equals the concatenation (union) of the per-chunk
outputs, so later chunks never overwrite entries written by earlier
chunks. -/
theorem C3_amended_chunk_union (remote : RemoteMap) (bot_ids : List PyVal)
    (hlen : 80 < (sanitizeIds bot_ids).length)
    (hnd : (sanitizeIds bot_ids).Nodup)
    (htags : ∀ ch ∈ chunkList 80 (sanitizeIds bot_ids),
      ∀ c ∈ hitCids (hitsOf (remote (tagsPayload ch))), c ∈ ch)
    (hratings : ∀ ch ∈ chunkList 80 (sanitizeIds bot_ids),
      ∀ c ∈ hitCids (hitsOf (remote (ratingsPayload ch))), c ∈ ch) :
    (chunkList 80 (sanitizeIds bot_ids)).Pairwise List.Disjoint ∧
    fetch_typesense_tags_for_bot_ids remote bot_ids =
      ((chunkList 80 (sanitizeIds bot_ids)).map
        (fun ch => (hitsOf (remote (tagsPayload ch))).foldl (batchHitStep tagValue) [])).flatten ∧
    fetch_typesense_ratings_for_bot_ids remote bot_ids =
      ((chunkList 80 (sanitizeIds bot_ids)).map
        (fun ch => (hitsOf (remote (ratingsPayload ch))).foldl (batchHitStep ratingValue) [])).flatten := by
  have hdisj := chunkList_pairwiseDisjoint 80 _ hnd
  have hne : (sanitizeIds bot_ids).isEmpty = false := by
    cases hx : sanitizeIds bot_ids with
    | nil => rw [hx] at hlen; simp at hlen
    | cons a l => rfl
  refine ⟨hdisj, ?_, ?_⟩
  · show (if (sanitizeIds bot_ids).isEmpty then [] else _) = _
    rw [hne]
    exact chunkedFold_eq_join (tagValue) (fun ch => hitsOf (remote (tagsPayload ch))) _
      htags hdisj
  · show (if (sanitizeIds bot_ids).isEmpty then [] else _) = _
    rw [hne]
    exact chunkedFold_eq_join (ratingValue) (fun ch => hitsOf (remote (ratingsPayload ch))) _
      hratings hdisj

/-- Witness for the amended C3: 81 distinct ids against an endpoint
that resolves nothing. -/
theorem C3_amended_chunk_union_witness :
    (chunkList 80 (sanitizeIds exC3ids)).Pairwise List.Disjoint ∧
    fetch_typesense_tags_for_bot_ids (fun _ => []) exC3ids =
      ((chunkList 80 (sanitizeIds exC3ids)).map
        (fun ch => (hitsOf ((fun _ => ([] : List (String × PyVal))) (tagsPayload ch))).foldl
          (batchHitStep tagValue) [])).flatten ∧
    fetch_typesense_ratings_for_bot_ids (fun _ => []) exC3ids =
      ((chunkList 80 (sanitizeIds exC3ids)).map
        (fun ch => (hitsOf ((fun _ => ([] : List (String × PyVal))) (ratingsPayload ch))).foldl
          (batchHitStep ratingValue) [])).flatten :=
  C3_amended_chunk_union (fun _ => []) exC3ids (by decide) (by decide)
    (fun ch _ c hc => absurd hc (by simp [hitsOf, hitCids, lookupD]))
    (fun ch _ c hc => absurd hc (by simp [hitsOf, hitCids, lookupD]))

/-- C3 counterexample: with a duplicate id spanning chunks, the id
`"id0"` appears in both windows — the chunks are not disjoint — and
the second chunk's answer overwrites the entry the first chunk wrote
(`A` becomes `B`), refuting the claim as stated for arbitrary input id
lists. -/
theorem C3_counterexample :
    chunkList 80 (sanitizeIds exC3dup) = [(sanitizeIds exC3dup).take 80, ["id0"]] ∧
    "id0" ∈ (sanitizeIds exC3dup).take 80 ∧
    (hitsOf (exC3remote (tagsPayload ((sanitizeIds exC3dup).take 80)))).foldl
      (batchHitStep tagValue) [] = [("id0", .list [.str "A"])] ∧
    fetch_typesense_tags_for_bot_ids exC3remote exC3dup = [("id0", .list [.str "B"])] := by
  refine ⟨by decide, by decide, rfl, rfl⟩

theorem allContainKey_records (bs : List PyVal)
    (h : ∀ b ∈ bs, isRecordWithCid b = true) :
    allContainKey "character_id" bs = some true := by
  induction bs with
  | nil => rfl
  | cons b bs ih =>
    have hb := h b (List.mem_cons_self _ _)
    simp only [isRecordWithCid, Bool.and_eq_true] at hb
    obtain ⟨hdict, hsome⟩ := hb
    cases b with
    | dict xs =>
      simp only [allContainKey, pyContains]
      have : xs.any (fun p => p.1 == "character_id") = true := by
        rcases hfind : xs.find? (fun p => p.1 == "character_id") with _ | p
        · rw [pyIndex, hfind] at hsome; simp at hsome
        · have hpp := List.find?_some hfind
          exact List.any_eq_true.2 ⟨p, List.mem_of_find?_eq_some hfind, hpp⟩
      rw [this]
      exact ih (fun b hb => h b (List.mem_cons_of_mem _ hb))
    | pynone => simp [PyVal.isDict] at hdict
    | pybool b => simp [PyVal.isDict] at hdict
    | num n => simp [PyVal.isDict] at hdict
    | str s => simp [PyVal.isDict] at hdict
    | list l => simp [PyVal.isDict] at hdict

theorem snapshotMapGo_eq (bs : List PyVal) : ∀ acc : List (String × PyVal),
    (∀ b ∈ bs, isRecordWithCid b = true) →
    (∀ b ∈ bs, recordCid b ∉ keysOf acc) →
    (bs.map recordCid).Nodup →
    snapshotMapGo acc bs = some (acc ++ bs.map (fun b => (recordCid b, b))) := by
  induction bs with
  | nil => intro acc _ _ _; simp [snapshotMapGo]
  | cons b bs ih =>
    intro acc hrec hfresh hnd
    have hb := hrec b (List.mem_cons_self _ _)
    simp only [isRecordWithCid, Bool.and_eq_true] at hb
    obtain ⟨v, hv⟩ := Option.isSome_iff_exists.1 hb.2
    simp only [snapshotMapGo, hv]
    have hcid : pyStr v = recordCid b := by simp [recordCid, hv]
    have hins : dictInsert (pyStr v) b acc = acc ++ [(recordCid b, b)] := by
      rw [hcid]
      have := dictInsert_append_of_not_mem (c := recordCid b) b
        ([] : List (String × PyVal)) (hfresh b (List.mem_cons_self _ _))
      simpa using this
    rw [hins]
    rw [ih (acc ++ [(recordCid b, b)])
      (fun x hx => hrec x (List.mem_cons_of_mem _ hx))
      (fun x hx => by
        intro hxmem
        rw [keysOf, List.map_append] at hxmem
        rcases List.mem_append.1 hxmem with hxa | hxb
        · exact hfresh x (List.mem_cons_of_mem _ hx) (by simpa [keysOf] using hxa)
        · simp only [List.map_cons, List.map_nil, List.mem_singleton] at hxb
          have hmm : recordCid x ∈ bs.map recordCid := List.mem_map_of_mem _ hx
          exact (List.nodup_cons.1 (by simpa using hnd)).1 (hxb ▸ hmm))
      ((List.nodup_cons.1 (by simpa using hnd)).2)]
    simp

/-- C4 as amended: for a cache file parsing to a sequence of N records
(mappings each carrying `character_id`) whose string ids are pairwise
distinct, `fetch_typesense_top_bots` with `use_cache=True` returns
exactly those N records keyed by their stringified `character_id`, in
snapshot order, makes zero transport calls and writes nothing back. -/
theorem C4_amended_cache_hit (remote : RemoteMap) (pct : PyVal → PyVal)
    (maxPages : Nat) (flag : Bool) (cacheF cacheU : CacheState) (bs : List PyVal)
    (hsel : (if flag then cacheF else cacheU) = .parsed (.list bs))
    (hrec : ∀ b ∈ bs, isRecordWithCid b = true)
    (hnd : (bs.map recordCid).Nodup) :
    fetch_typesense_top_bots remote pct maxPages true flag cacheF cacheU =
      { result := bs.map (fun b => (recordCid b, b)), allResults := [], pages := [],
        cacheWrite := none } ∧
    (fetch_typesense_top_bots remote pct maxPages true flag cacheF cacheU).result.length
      = bs.length ∧
    (fetch_typesense_top_bots remote pct maxPages true flag cacheF cacheU).remoteCalls = 0 := by
  have hread : cacheRead true (if flag then cacheF else cacheU) =
      some (bs.map (fun b => (recordCid b, b))) := by
    rw [hsel]
    simp only [cacheRead, Bool.not_true, Bool.false_eq_true, if_false]
    rw [allContainKey_records bs hrec]
    have := snapshotMapGo_eq bs [] hrec (by simp [keysOf]) hnd
    simpa [snapshotMap] using this
  have hfetch : fetch_typesense_top_bots remote pct maxPages true flag cacheF cacheU =
      { result := bs.map (fun b => (recordCid b, b)), allResults := [], pages := [],
        cacheWrite := none } := by
    simp only [fetch_typesense_top_bots, hread]
  refine ⟨hfetch, ?_, ?_⟩
  · rw [hfetch]; simp
  · rw [hfetch]; rfl

/-- Witness for the amended C4 at a concrete snapshot. -/
theorem C4_amended_cache_hit_witness :
    fetch_typesense_top_bots (fun _ => []) (fun _ => .pynone) 10 true true
        (.parsed (.list exC4bs)) .absent =
      { result := exC4bs.map (fun b => (recordCid b, b)), allResults := [], pages := [],
        cacheWrite := none } ∧
    (fetch_typesense_top_bots (fun _ => []) (fun _ => .pynone) 10 true true
        (.parsed (.list exC4bs)) .absent).result.length = exC4bs.length ∧
    (fetch_typesense_top_bots (fun _ => []) (fun _ => .pynone) 10 true true
        (.parsed (.list exC4bs)) .absent).remoteCalls = 0 :=
  C4_amended_cache_hit (fun _ => []) (fun _ => .pynone) 10 true
    (.parsed (.list exC4bs)) .absent exC4bs rfl (by decide) (by decide)

/-- C4 counterexample: a cache file holding N = 2 records, each with a
`character_id`, for which the returned mapping has only 1 entry (the
second record displaced the first under the shared key), not N — so
the call does not return "exactly those N records". -/
theorem C4_counterexample :
    (fetch_typesense_top_bots (fun _ => []) (fun _ => .pynone) 10 true true
        (.parsed (.list exC4dup)) .absent).result.length = 1 ∧
    exC4dup.length = 2 ∧
    (fetch_typesense_top_bots (fun _ => []) (fun _ => .pynone) 10 true true
        (.parsed (.list exC4dup)) .absent).result =
      [("a", .dict [("character_id", .str "a"), ("tags", .list [.str "T2"])])] :=
  ⟨rfl, rfl, rfl⟩

/-- C10: an empty cached array is accepted by the snapshot validation
(vacuously) and returned as the empty mapping with zero transport
calls; and no call of `fetch_typesense_top_bots` ever writes an empty
snapshot, because the cache write is guarded by `if ALL_RESULTS`. -/
theorem C10_empty_snapshot_no_empty_write (remote : RemoteMap) (pct : PyVal → PyVal)
    (maxPages : Nat) (useCache flag : Bool) (cacheF cacheU : CacheState) :
    (fetch_typesense_top_bots remote pct maxPages true flag
        (.parsed (.list [])) (.parsed (.list []))).result = [] ∧
    (fetch_typesense_top_bots remote pct maxPages true flag
        (.parsed (.list [])) (.parsed (.list []))).remoteCalls = 0 ∧
    (fetch_typesense_top_bots remote pct maxPages useCache flag cacheF cacheU).cacheWrite
      ≠ some [] := by
  refine ⟨by cases flag <;> rfl, by cases flag <;> rfl, ?_⟩
  intro h
  simp only [fetch_typesense_top_bots] at h
  cases hcr : cacheRead useCache (if flag then cacheF else cacheU) with
  | some m => rw [hcr] at h; exact Option.noConfusion h
  | none =>
    rw [hcr] at h
    simp only at h
    by_cases he : (crawlLoop remote pct flag 1 maxPages []).allResults.isEmpty
    · rw [if_pos he] at h; exact Option.noConfusion h
    · rw [if_neg he] at h
      have := Option.some.inj h
      rw [this] at he
      exact he rfl

theorem botRecord_rank (pct : PyVal → PyVal) (page rank : Nat) (obj : PyVal) :
    dictGet (botRecord pct page rank obj) "rank" = .num (rank : Int) := rfl

theorem botRecord_cid (pct : PyVal → PyVal) (page rank : Nat) (obj : PyVal) :
    dictGet (botRecord pct page rank obj) "character_id" = .str (crawlCid obj) := rfl

theorem range'_append_one (s m n : Nat) :
    List.range' s m ++ List.range' (s + m) n = List.range' s (m + n) := by
  induction m generalizing s with
  | zero => simp
  | succ k ih =>
    rw [List.range'_succ, List.cons_append,
      show s + (k + 1) = (s + 1) + k by omega, ih (s + 1),
      show k + 1 + n = (k + n) + 1 by omega, List.range'_succ]

theorem map_num_range'_glue (s m n t : Nat) (h : t = s + m) :
    (List.range' s m).map (fun k => PyVal.num (Int.ofNat k)) ++
      (List.range' t n).map (fun k => PyVal.num (Int.ofNat k)) =
      (List.range' s (m + n)).map (fun k => PyVal.num (Int.ofNat k)) := by
  subst h
  rw [← List.map_append, range'_append_one]

theorem crawlPageStep_spec (pct : PyVal → PyVal) (page : Nat) :
    ∀ (hits : List PyVal) (acc : List PyVal),
      (crawlPageStep pct page acc hits).map (fun b => dictGet b "rank") =
        acc.map (fun b => dictGet b "rank") ++
          (List.range' (acc.length + 1) (crawlAccepted hits).length).map
            (fun n => PyVal.num (Int.ofNat n)) ∧
      (crawlPageStep pct page acc hits).map (fun b => dictGet b "character_id") =
        acc.map (fun b => dictGet b "character_id") ++ crawlAccepted hits ∧
      (crawlPageStep pct page acc hits).length = acc.length + (crawlAccepted hits).length := by
  intro hits
  induction hits with
  | nil => intro acc; simp [crawlPageStep, crawlAccepted]
  | cons obj hs ih =>
    intro acc
    by_cases hc : crawlCid obj = ""
    · have h1 : crawlPageStep pct page acc (obj :: hs) = crawlPageStep pct page acc hs := by
        simp [crawlPageStep, hc]
      have h2 : crawlAccepted (obj :: hs) = crawlAccepted hs := by
        simp [crawlAccepted, hc]
      rw [h1, h2]; exact ih acc
    · have h1 : crawlPageStep pct page acc (obj :: hs) =
          crawlPageStep pct page (acc ++ [botRecord pct page (acc.length + 1) obj]) hs := by
        simp [crawlPageStep, hc]
      have h2 : crawlAccepted (obj :: hs) = PyVal.str (crawlCid obj) :: crawlAccepted hs := by
        simp [crawlAccepted, hc]
      obtain ⟨ihr, ihc, ihl⟩ := ih (acc ++ [botRecord pct page (acc.length + 1) obj])
      rw [h1, h2]
      refine ⟨?_, ?_, ?_⟩
      · rw [ihr]
        simp only [List.map_append, List.map_cons, List.map_nil, List.length_append,
          List.length_cons, List.length_nil, List.length_map, botRecord_rank,
          List.append_assoc, List.cons_append, List.nil_append]
        congr 1
      · rw [ihc]
        simp [botRecord_cid, List.append_assoc]
      · rw [ihl]
        simp only [List.length_append, List.length_cons, List.length_nil]
        omega

theorem crawlLoop_spec (remote : RemoteMap) (pct : PyVal → PyVal) (flag : Bool) :
    ∀ (fuel page : Nat) (acc : List PyVal),
      (crawlLoop remote pct flag page fuel acc).allResults.map (fun b => dictGet b "rank") =
        acc.map (fun b => dictGet b "rank") ++
          (List.range' (acc.length + 1)
            (crawlAccepted (crawlFetchedHits remote flag
              (crawlLoop remote pct flag page fuel acc).pages)).length).map
            (fun n => PyVal.num (Int.ofNat n)) ∧
      (crawlLoop remote pct flag page fuel acc).allResults.map
          (fun b => dictGet b "character_id") =
        acc.map (fun b => dictGet b "character_id") ++
          crawlAccepted (crawlFetchedHits remote flag
            (crawlLoop remote pct flag page fuel acc).pages) ∧
      (crawlLoop remote pct flag page fuel acc).allResults.length =
        acc.length + (crawlAccepted (crawlFetchedHits remote flag
          (crawlLoop remote pct flag page fuel acc).pages)).length := by
  intro fuel
  induction fuel with
  | zero =>
    intro page acc
    simp [crawlLoop, crawlFetchedHits, crawlAccepted]
  | succ n ih =>
    intro page acc
    simp only [crawlLoop]
    by_cases hempty : (hitsOf (remote (crawlPayload flag page))).isEmpty
    · rw [if_pos hempty]
      have hnil : hitsOf (remote (crawlPayload flag page)) = [] :=
        List.isEmpty_iff.1 hempty
      simp [crawlFetchedHits, hnil, crawlAccepted]
    · rw [if_neg hempty]
      by_cases hlt : (hitsOf (remote (crawlPayload flag page))).length < 48
      · rw [if_pos hlt]
        have hps := crawlPageStep_spec pct page (hitsOf (remote (crawlPayload flag page))) acc
        simpa [crawlFetchedHits] using hps
      · rw [if_neg hlt]
        have hps := crawlPageStep_spec pct page (hitsOf (remote (crawlPayload flag page))) acc
        obtain ⟨hpr, hpc, hpl⟩ := hps
        obtain ⟨ihr, ihc, ihl⟩ := ih (page + 1)
          (crawlPageStep pct page acc (hitsOf (remote (crawlPayload flag page))))
        refine ⟨?_, ?_, ?_⟩
        · rw [ihr, hpr, hpl]
          simp only [crawlFetchedHits, List.map_cons, List.flatten_cons, crawlAccepted,
            List.filterMap_append, List.length_append, List.append_assoc]
          congr 1
          exact map_num_range'_glue _ _ _ _ (by omega)
        · rw [ihc, hpc]
          simp [crawlFetchedHits, crawlAccepted, List.filterMap_append, List.append_assoc]
        · rw [ihl, hpl]
          simp only [crawlFetchedHits, List.map_cons, List.flatten_cons, crawlAccepted,
            List.filterMap_append, List.length_append]
          omega

theorem crawlLoop_pages (remote : RemoteMap) (pct : PyVal → PyVal) (flag : Bool) :
    ∀ (fuel page : Nat) (acc : List PyVal) (p : Nat),
      p ∈ (crawlLoop remote pct flag page fuel acc).pages ↔
        (page ≤ p ∧ p < page + fuel ∧
          ∀ q, page ≤ q → q < p → 48 ≤ hitCount remote flag q) := by
  intro fuel
  induction fuel with
  | zero =>
    intro page acc p
    simp only [crawlLoop, List.not_mem_nil, false_iff]
    intro h
    omega
  | succ n ih =>
    intro page acc p
    simp only [crawlLoop]
    by_cases hempty : (hitsOf (remote (crawlPayload flag page))).isEmpty
    · rw [if_pos hempty]
      have hc : hitCount remote flag page = 0 := by
        simp [hitCount, List.isEmpty_iff.1 hempty]
      simp only [List.mem_singleton]
      constructor
      · rintro rfl
        exact ⟨le_refl _, by omega, fun q hq1 hq2 => absurd (by omega : q < q) (lt_irrefl q)⟩
      · rintro ⟨h1, h2, h3⟩
        by_contra hne
        have hlt : page < p := lt_of_le_of_ne h1 (fun hh => hne hh.symm)
        have := h3 page (le_refl _) hlt
        omega
    · rw [if_neg hempty]
      by_cases hlt : (hitsOf (remote (crawlPayload flag page))).length < 48
      · rw [if_pos hlt]
        have hc : hitCount remote flag page < 48 := hlt
        simp only [List.mem_singleton]
        constructor
        · rintro rfl
          exact ⟨le_refl _, by omega, fun q hq1 hq2 => absurd (by omega : q < q) (lt_irrefl q)⟩
        · rintro ⟨h1, h2, h3⟩
          by_contra hne
          have hplt : page < p := lt_of_le_of_ne h1 (fun hh => hne hh.symm)
          have := h3 page (le_refl _) hplt
          omega
      · rw [if_neg hlt]
        have hc : 48 ≤ hitCount remote flag page := by
          simpa [hitCount] using Nat.le_of_not_lt hlt
        simp only [List.mem_cons]
        rw [ih (page + 1) (crawlPageStep pct page acc (hitsOf (remote (crawlPayload flag page)))) p]
        constructor
        · rintro (rfl | ⟨h1, h2, h3⟩)
          · exact ⟨le_refl _, by omega, fun q hq1 hq2 => absurd (by omega : q < q) (lt_irrefl q)⟩
          · refine ⟨by omega, by omega, fun q hq1 hq2 => ?_⟩
            rcases Nat.eq_or_lt_of_le hq1 with hq | hq
            · rw [← hq]; exact hc
            · exact h3 q hq hq2
        · rintro ⟨h1, h2, h3⟩
          rcases Nat.eq_or_lt_of_le h1 with hq | hq
          · exact Or.inl hq.symm
          · exact Or.inr ⟨hq, by omega, fun q hq1 hq2 => h3 q (by omega) hq2⟩

/-- C6: throughout every crawl, the ranks in the accumulated
`ALL_RESULTS` are exactly 1, 2, ..., n in order — each accepted hit
received `rank = (previously accepted) + 1` when appended — and the id
sequence equals the accepted hits of the fetched pages in response
order: a hit with a missing or empty-after-strip `character_id` is
skipped, contributes nothing, and consumes no rank. -/
theorem C6_rank_assignment (remote : RemoteMap) (pct : PyVal → PyVal)
    (maxPages : Nat) (useCache flag : Bool) (cacheF cacheU : CacheState) :
    (fetch_typesense_top_bots remote pct maxPages useCache flag cacheF cacheU).allResults.map
        (fun b => dictGet b "rank") =
      (List.range' 1
        (fetch_typesense_top_bots remote pct maxPages useCache flag
          cacheF cacheU).allResults.length).map (fun n => PyVal.num (Int.ofNat n)) ∧
    (fetch_typesense_top_bots remote pct maxPages useCache flag cacheF cacheU).allResults.map
        (fun b => dictGet b "character_id") =
      crawlAccepted (crawlFetchedHits remote flag
        (fetch_typesense_top_bots remote pct maxPages useCache flag cacheF cacheU).pages) := by
  cases hcr : cacheRead useCache (if flag then cacheF else cacheU) with
  | some m =>
    have hf : fetch_typesense_top_bots remote pct maxPages useCache flag cacheF cacheU =
        { result := m, allResults := [], pages := [], cacheWrite := none } := by
      simp only [fetch_typesense_top_bots, hcr]
    rw [hf]
    simp [crawlFetchedHits, crawlAccepted]
  | none =>
    have hf : (fetch_typesense_top_bots remote pct maxPages useCache flag
          cacheF cacheU).allResults = (crawlLoop remote pct flag 1 maxPages []).allResults := by
      simp only [fetch_typesense_top_bots, hcr]
    have hfp : (fetch_typesense_top_bots remote pct maxPages useCache flag
          cacheF cacheU).pages = (crawlLoop remote pct flag 1 maxPages []).pages := by
      simp only [fetch_typesense_top_bots, hcr]
    obtain ⟨hr, hcids, hlen⟩ := crawlLoop_spec remote pct flag maxPages 1 []
    rw [hf, hfp]
    constructor
    · rw [hr, hlen]
      simp
    · rw [hcids]
      simp

set_option maxRecDepth 40000 in
/-- C5: a cache-missing crawl fetches page p exactly when p is in
budget and every earlier page delivered a full 48 hits — equivalently,
it starts at page 1 and stops exactly at the first page that yields
zero hits or fewer than 48, or when the counter exceeds `max_pages`;
with page hit counts [48, 48, 30] it fetches pages 1, 2, 3 and
accumulates ranks 1..126 in page order; with [48, 0] the accumulation
ends with page 1's 48 ranks (the page-2 call observes zero hits and
stops the crawl). -/
theorem C5_crawl_stop_conditions (remote : RemoteMap) (pct : PyVal → PyVal)
    (maxPages : Nat) (flag : Bool) (cacheF cacheU : CacheState) :
    (∀ p, p ∈ (fetch_typesense_top_bots remote pct maxPages false flag cacheF cacheU).pages ↔
      (1 ≤ p ∧ p ≤ maxPages ∧ ∀ q, 1 ≤ q → q < p → 48 ≤ hitCount remote flag q)) ∧
    (fetch_typesense_top_bots (exPagedRemote [48, 48, 30]) (fun _ => .pynone) 10 false false
      .absent .absent).pages = [1, 2, 3] ∧
    (fetch_typesense_top_bots (exPagedRemote [48, 48, 30]) (fun _ => .pynone) 10 false false
      .absent .absent).allResults.length = 126 ∧
    (fetch_typesense_top_bots (exPagedRemote [48, 48, 30]) (fun _ => .pynone) 10 false false
      .absent .absent).allResults.map rankInt = (List.range' 1 126).map Int.ofNat ∧
    (fetch_typesense_top_bots (exPagedRemote [48, 48, 30]) (fun _ => .pynone) 10 false false
      .absent .absent).allResults.map pageInt =
      List.replicate 48 (1 : Int) ++ List.replicate 48 (2 : Int) ++
        List.replicate 30 (3 : Int) ∧
    (fetch_typesense_top_bots (exPagedRemote [48, 0]) (fun _ => .pynone) 10 false false
      .absent .absent).pages = [1, 2] ∧
    (fetch_typesense_top_bots (exPagedRemote [48, 0]) (fun _ => .pynone) 10 false false
      .absent .absent).allResults.length = 48 ∧
    (fetch_typesense_top_bots (exPagedRemote [48, 0]) (fun _ => .pynone) 10 false false
      .absent .absent).allResults.map rankInt = (List.range' 1 48).map Int.ofNat ∧
    (fetch_typesense_top_bots (exPagedRemote [48, 0]) (fun _ => .pynone) 10 false false
      .absent .absent).allResults.map pageInt = List.replicate 48 (1 : Int) := by
  refine ⟨?_, rfl, by decide, by decide, by decide, rfl, by decide, by decide, by decide⟩
  intro p
  have hiff := crawlLoop_pages remote pct flag maxPages 1 [] p
  constructor
  · intro hp
    obtain ⟨h1, h2, h3⟩ := hiff.1 hp
    exact ⟨h1, by omega, h3⟩
  · rintro ⟨h1, h2, h3⟩
    exact hiff.2 ⟨h1, by omega, h3⟩

theorem hasKey_iff_mem_keysOf (m : List (String × PyVal)) (k : String) :
    hasKey m k = true ↔ k ∈ keysOf m := by
  simp only [hasKey, List.any_eq_true, keysOf, List.mem_map]
  constructor
  · rintro ⟨p, hp, hpk⟩
    exact ⟨p, hp, by simpa using hpk⟩
  · rintro ⟨p, hp, hpk⟩
    exact ⟨p, hp, by simpa using hpk⟩

theorem hasKey_buildTagMapGo :
    ∀ (ts : List (String × PyVal)) (m : List (String × PyVal)) (cid : String),
      hasKey (ts.foldl (fun m p =>
        if (pyOr (dictGet p.2 "tags") (.list [])).truthy
        then dictInsert p.1 (pyOr (dictGet p.2 "tags") (.list [])) m
        else m) m) cid = true ↔
      (hasKey m cid = true ∨
        ∃ p ∈ ts, p.1 = cid ∧ (pyOr (dictGet p.2 "tags") (.list [])).truthy = true) := by
  intro ts
  induction ts with
  | nil => intro m cid; simp
  | cons p ts ih =>
    intro m cid
    simp only [List.foldl_cons]
    rw [ih]
    by_cases hp : (pyOr (dictGet p.2 "tags") (.list [])).truthy
    · rw [if_pos hp]
      constructor
      · rintro (hm | hex)
        · rcases (hasKey_iff_mem_keysOf _ _).1 hm with hmem
          rcases mem_keysOf_dictInsert.1 hmem with rfl | hold
          · exact Or.inr ⟨p, List.mem_cons_self _ _, rfl, hp⟩
          · exact Or.inl ((hasKey_iff_mem_keysOf _ _).2 hold)
        · obtain ⟨q, hq, hq1, hq2⟩ := hex
          exact Or.inr ⟨q, List.mem_cons_of_mem _ hq, hq1, hq2⟩
      · rintro (hm | ⟨q, hq, hq1, hq2⟩)
        · exact Or.inl ((hasKey_iff_mem_keysOf _ _).2
            (mem_keysOf_dictInsert.2 (Or.inr ((hasKey_iff_mem_keysOf _ _).1 hm))))
        · rcases List.mem_cons.1 hq with rfl | hq'
          · exact Or.inl ((hasKey_iff_mem_keysOf _ _).2
              (mem_keysOf_dictInsert.2 (Or.inl hq1.symm)))
          · exact Or.inr ⟨q, hq', hq1, hq2⟩
    · rw [if_neg hp]
      constructor
      · rintro (hm | hex)
        · exact Or.inl hm
        · obtain ⟨q, hq, hq1, hq2⟩ := hex
          exact Or.inr ⟨q, List.mem_cons_of_mem _ hq, hq1, hq2⟩
      · rintro (hm | ⟨q, hq, hq1, hq2⟩)
        · exact Or.inl hm
        · rcases List.mem_cons.1 hq with rfl | hq'
          · exact absurd hq2 (by simpa using hp)
          · exact Or.inr ⟨q, hq', hq1, hq2⟩

/-- C9: the Tag Map Builder performs one cache-preferring unfiltered
fetch; exactly one additional live fetch occurs if and only if that
first fetch yielded an empty mapping, so at most two fetches happen;
and a key is present in the tag map exactly when the used top-bot
mapping holds a record with that id whose tag list is truthy — in
particular a record with an empty or absent tag list contributes no
key (absence, not an empty list). -/
theorem C9_tag_map_fetch_escalation (remote : RemoteMap) (pct : PyVal → PyVal)
    (cacheF cacheU : CacheState) :
    (get_typesense_tag_map remote pct cacheF cacheU).fetchCalls =
      (if (fetch_typesense_top_bots remote pct 10 true false cacheF cacheU).result.isEmpty
       then 2 else 1) ∧
    (get_typesense_tag_map remote pct cacheF cacheU).fetchCalls ≤ 2 ∧
    ((get_typesense_tag_map remote pct cacheF cacheU).fetchCalls = 2 ↔
      (fetch_typesense_top_bots remote pct 10 true false cacheF cacheU).result = []) ∧
    (get_typesense_tag_map remote pct cacheF cacheU).tagMap =
      buildTagMap (get_typesense_tag_map remote pct cacheF cacheU).tsUsed ∧
    (∀ cid, hasKey (get_typesense_tag_map remote pct cacheF cacheU).tagMap cid = true ↔
      ∃ p ∈ (get_typesense_tag_map remote pct cacheF cacheU).tsUsed, p.1 = cid ∧
        (pyOr (dictGet p.2 "tags") (.list [])).truthy = true) := by
  refine ⟨rfl, ?_, ?_, rfl, ?_⟩
  · show (if (fetch_typesense_top_bots remote pct 10 true false cacheF cacheU).result.isEmpty
       then 2 else 1) ≤ 2
    split <;> omega
  · show (if (fetch_typesense_top_bots remote pct 10 true false cacheF cacheU).result.isEmpty
       then 2 else 1) = 2 ↔ _
    split
    · next hemp => simp [List.isEmpty_iff.1 hemp]
    · next hemp =>
      constructor
      · intro h; omega
      · intro h
        rw [h] at hemp
        simp at hemp
  · intro cid
    have hgo := hasKey_buildTagMapGo
      (get_typesense_tag_map remote pct cacheF cacheU).tsUsed [] cid
    rw [show (get_typesense_tag_map remote pct cacheF cacheU).tagMap
      = buildTagMap (get_typesense_tag_map remote pct cacheF cacheU).tsUsed from rfl]
    simpa [buildTagMap, hasKey] using hgo

theorem hasKey_createdHitStep_mono (m : List (String × PyVal)) (h : PyVal) (k : String)
    (hk : hasKey m k = true) : hasKey (createdHitStep m h) k = true := by
  unfold createdHitStep
  split
  · exact hk
  · split
    · exact (hasKey_iff_mem_keysOf _ _).2
        (mem_keysOf_dictInsert.2 (Or.inr ((hasKey_iff_mem_keysOf _ _).1 hk)))
    · exact hk

theorem hasKey_hitsFold_mono (hits : List PyVal) : ∀ (m : List (String × PyVal)) (k : String),
    hasKey m k = true → hasKey (hits.foldl createdHitStep m) k = true := by
  induction hits with
  | nil => exact fun m k hk => hk
  | cons h hs ih => exact fun m k hk => ih _ k (hasKey_createdHitStep_mono m h k hk)

theorem hasKey_collFold_mono (remote : RemoteMap) (coll : String) (remaining : List String)
    (out : List (String × PyVal)) (k : String) (hk : hasKey out k = true) :
    hasKey (createdCollFold remote coll remaining out) k = true := by
  unfold createdCollFold
  generalize chunkList 80 remaining = chunks
  induction chunks generalizing out with
  | nil => exact hk
  | cons c cs ih => exact ih _ (hasKey_hitsFold_mono _ _ k hk)

theorem mem_of_getElemOpt {steps : List CollStep} {j : Nat} {st : CollStep}
    (h : steps[j]? = some st) : st ∈ steps := by
  induction steps generalizing j with
  | nil => simp at h
  | cons a rest ih =>
    cases j with
    | zero =>
      have ha : a = st := by simpa using h
      subst ha
      exact List.mem_cons_self _ _
    | succ j => exact List.mem_cons_of_mem _ (ih (by simpa using h))

theorem chained_start_mem (remote : RemoteMap) :
    ∀ (steps : List CollStep) (out : List (String × PyVal)),
      stepsChained remote out steps →
      ∀ (j : Nat) (stj : CollStep), steps[j]? = some stj →
        ∀ k, hasKey out k = true → hasKey stj.outBefore k = true := by
  intro steps
  induction steps with
  | nil => intro out _ j stj hj; simp at hj
  | cons st rest ih =>
    intro out hch j stj hj k hk
    obtain ⟨hst, hrest⟩ := hch
    cases j with
    | zero =>
      have : st = stj := by simpa using hj
      subst this
      simpa [hst] using hk
    | succ j =>
      exact ih _ hrest j stj (by simpa using hj) k
        (hasKey_collFold_mono remote st.coll st.remaining out k hk)

theorem chained_mono_mem (remote : RemoteMap) :
    ∀ (steps : List CollStep) (out : List (String × PyVal)),
      stepsChained remote out steps →
      ∀ (i j : Nat) (sti stj : CollStep), i ≤ j →
        steps[i]? = some sti → steps[j]? = some stj →
        ∀ k, hasKey sti.outBefore k = true → hasKey stj.outBefore k = true := by
  intro steps
  induction steps with
  | nil => intro out _ i j sti stj _ hi; simp at hi
  | cons st rest ih =>
    intro out hch i j sti stj hij hi hj k hk
    obtain ⟨hst, hrest⟩ := hch
    cases i with
    | zero =>
      have hsti : st = sti := by simpa using hi
      subst hsti
      have hout : hasKey out k = true := by simpa [hst] using hk
      cases j with
      | zero =>
        have hstj : st = stj := by simpa using hj
        subst hstj
        exact hk
      | succ j =>
        exact chained_start_mem remote rest _ hrest j stj (by simpa using hj) k
          (hasKey_collFold_mono remote st.coll st.remaining out k hout)
    | succ i =>
      cases j with
      | zero => omega
      | succ j =>
        exact ih _ hrest i j sti stj (by omega) (by simpa using hi) (by simpa using hj) k hk

theorem createdLoop_spec (remote : RemoteMap) (ids : List String) :
    ∀ (colls : List String) (out : List (String × PyVal)),
      ((createdLoop remote ids colls out).2.map CollStep.coll =
        colls.take (createdLoop remote ids colls out).2.length) ∧
      (∀ st ∈ (createdLoop remote ids colls out).2,
        st.remaining = ids.filter (fun bid => !(hasKey st.outBefore bid)) ∧
        st.remaining ≠ []) ∧
      stepsChained remote out (createdLoop remote ids colls out).2 ∧
      ((createdLoop remote ids colls out).2.length < colls.length →
        ids.filter (fun bid => !(hasKey (createdLoop remote ids colls out).1 bid)) = []) := by
  intro colls
  induction colls with
  | nil =>
    intro out
    refine ⟨rfl, ?_, trivial, ?_⟩
    · intro st hst; simp [createdLoop] at hst
    · intro h; simp [createdLoop] at h
  | cons coll colls ih =>
    intro out
    by_cases hemp : (ids.filter (fun bid => !(hasKey out bid))).isEmpty
    · have hres : createdLoop remote ids (coll :: colls) out = (out, []) := by
        simp [createdLoop, hemp]
      refine ⟨by simp [hres], by simp [hres], by simp [hres, stepsChained], ?_⟩
      intro _
      simp only [hres]
      exact List.isEmpty_iff.1 hemp
    · have hres : createdLoop remote ids (coll :: colls) out =
          ((createdLoop remote ids colls (createdCollFold remote coll
            (ids.filter (fun bid => !(hasKey out bid))) out)).1,
           { coll := coll, outBefore := out,
             remaining := ids.filter (fun bid => !(hasKey out bid)) } ::
           (createdLoop remote ids colls (createdCollFold remote coll
             (ids.filter (fun bid => !(hasKey out bid))) out)).2) := by
        simp [createdLoop, hemp]
      obtain ⟨ih1, ih2, ih3, ih4⟩ := ih (createdCollFold remote coll
        (ids.filter (fun bid => !(hasKey out bid))) out)
      refine ⟨?_, ?_, ?_, ?_⟩
      · simp only [hres, List.map_cons, List.length_cons, List.take_succ_cons]
        rw [ih1]
      · intro st hst
        rw [hres] at hst
        simp only [List.mem_cons] at hst
        rcases hst with rfl | hst
        · refine ⟨rfl, fun hnil => ?_⟩
          have hfil : (ids.filter (fun bid => !(hasKey out bid))) = [] := hnil
          rw [hfil] at hemp
          exact hemp rfl
        · exact ih2 st hst
      · rw [hres]
        exact ⟨rfl, ih3⟩
      · intro hlen
        rw [hres] at hlen ⊢
        simp only [List.length_cons] at hlen
        exact ih4 (by omega)

/-- C8: the created_at lookup walks the collections in their given
priority order (the trace names a front segment of the collection
list); each processed collection queried exactly the not-yet-resolved
ids (`remaining` = sanitized input minus already-found keys,
non-empty, covered exactly by its windows of 80); the accumulated
output only grows along the trace, so an id already resolved when an
earlier collection finished is never part of a later collection's
query; and if the loop stopped before exhausting the collections,
every sanitized id had been resolved. -/
theorem C8_created_at_priority (remote : RemoteMap) (bot_ids : List PyVal)
    (collections : List String) :
    ((fetch_typesense_created_at_for_bot_ids remote bot_ids collections).2.map
        CollStep.coll =
      collections.take
        (fetch_typesense_created_at_for_bot_ids remote bot_ids collections).2.length) ∧
    (∀ st ∈ (fetch_typesense_created_at_for_bot_ids remote bot_ids collections).2,
      st.remaining = (sanitizeIds bot_ids).filter (fun bid => !(hasKey st.outBefore bid)) ∧
      st.remaining ≠ [] ∧
      (chunkList 80 st.remaining).flatten = st.remaining) ∧
    (∀ (i j : Nat) (sti stj : CollStep), i ≤ j →
      (fetch_typesense_created_at_for_bot_ids remote bot_ids collections).2[i]? = some sti →
      (fetch_typesense_created_at_for_bot_ids remote bot_ids collections).2[j]? = some stj →
      ∀ k, hasKey sti.outBefore k = true → hasKey stj.outBefore k = true) ∧
    (∀ (i j : Nat) (sti stj : CollStep), i ≤ j →
      (fetch_typesense_created_at_for_bot_ids remote bot_ids collections).2[i]? = some sti →
      (fetch_typesense_created_at_for_bot_ids remote bot_ids collections).2[j]? = some stj →
      ∀ k, hasKey sti.outBefore k = true → k ∉ stj.remaining) ∧
    ((fetch_typesense_created_at_for_bot_ids remote bot_ids collections).2.length <
        collections.length →
      (sanitizeIds bot_ids).filter (fun bid =>
        !(hasKey (fetch_typesense_created_at_for_bot_ids remote bot_ids collections).1 bid))
        = []) := by
  by_cases hids : (sanitizeIds bot_ids).isEmpty
  · have hres : fetch_typesense_created_at_for_bot_ids remote bot_ids collections
        = ([], []) := by
      simp [fetch_typesense_created_at_for_bot_ids, hids]
    refine ⟨by simp [hres], by simp [hres], ?_, ?_, ?_⟩
    · intro i j sti stj _ hi
      rw [hres] at hi
      simp at hi
    · intro i j sti stj _ hi
      rw [hres] at hi
      simp at hi
    · intro _
      rw [hres]
      rw [List.isEmpty_iff.1 hids]
      rfl
  · have hres : fetch_typesense_created_at_for_bot_ids remote bot_ids collections
        = createdLoop remote (sanitizeIds bot_ids) collections [] := by
      simp [fetch_typesense_created_at_for_bot_ids, hids]
    obtain ⟨h1, h2, h3, h4⟩ := createdLoop_spec remote (sanitizeIds bot_ids) collections []
    refine ⟨by rw [hres]; exact h1, ?_, ?_, ?_, by rw [hres]; exact h4⟩
    · intro st hst
      rw [hres] at hst
      obtain ⟨hrem, hne⟩ := h2 st hst
      exact ⟨hrem, hne, chunkList_flatten 80 st.remaining⟩
    · intro i j sti stj hij hi hj k hk
      rw [hres] at hi hj
      exact chained_mono_mem remote _ [] h3 i j sti stj hij hi hj k hk
    · intro i j sti stj hij hi hj k hk hmem
      rw [hres] at hi hj
      have hmono := chained_mono_mem remote _ [] h3 i j sti stj hij hi hj k hk
      have hstj : stj ∈ (createdLoop remote (sanitizeIds bot_ids) collections []).2 :=
        mem_of_getElemOpt hj
      obtain ⟨hrem, _⟩ := h2 stj hstj
      rw [hrem] at hmem
      rw [List.mem_filter] at hmem
      rw [hmono] at hmem
      simp at hmem

